import Mathlib

/-!
# SoloLevelling productivity app — progression core, shallow embedding

This file embeds the progression and rules engine of the gamified
productivity client (the state reducer in `App.tsx`): XP accumulation and
level recomputation, the daily quest rollover, habit streak toggling, badge
unlocking, and focus-session completion.  Timestamps ("instants") are
modelled as minutes since the epoch (`Int`); an ISO-8601 timestamp string
`new Date(t).toISOString()` starts with the date prefix `YYYY-MM-DD` of day
`t / 1440` (UTC), so `date.startsWith(todayStr)` is modelled as equality of
UTC day keys.  Entity ids (`crypto.randomUUID()` strings) are modelled as
`Nat`.  Fallible/branching code is translated with explicit `match`/`if`.
-/

namespace Solo

/-- UTC calendar-day key of an instant (minutes since epoch): the day index
carried by the `YYYY-MM-DD` prefix of `new Date(t).toISOString()`. -/
def utcDayKey (t : Int) : Int := Int.fdiv t 1440

/-- Modelled from the spec: `utils/date.ts` is not among the sources, only its
callers are.  Per §4.3 the date-key is "a calendar-day identifier … computed
from the viewer's local timezone, not UTC": the day index of the instant
shifted by the viewer's timezone offset (in minutes). -/
def toLocalDateKey (tzOffsetMinutes : Int) (t : Int) : Int :=
  Int.fdiv (t + tzOffsetMinutes) 1440

/-- Modelled from the spec: `utils/date.ts` is not among the sources.  §4.3
only requires the rollover to re-anchor a daily quest's `dueDate` "to today",
i.e. to the instant `now` passed to it. -/
def makeDueDateISO (now : Int) : Int := now

structure Subtask where
  id : Nat
  title : String
  completed : Bool
deriving DecidableEq

inductive QuestStatus where
  | pending
  | completed
deriving DecidableEq

structure Quest where
  id : Nat
  title : String
  description : Option String
  difficulty : String
  status : QuestStatus
  xpReward : Int
  dueDate : Option Int
  isDaily : Bool
  subtasks : List Subtask
  tags : List String
  createdAt : Int
  completedAt : Option Int
deriving DecidableEq

structure Habit where
  id : Nat
  title : String
  frequency : String
  currentStreak : Int
  longestStreak : Int
  xpPerCompletion : Int
  completedDates : List Int
  createdAt : Int
  color : String
deriving DecidableEq

structure FocusSession where
  id : Nat
  duration : Int
  startTime : Int
  endTime : Int
  xpEarned : Int
  completed : Bool
deriving DecidableEq

structure Badge where
  id : Nat
  name : String
  requirement : Option String
  isLocked : Bool
  unlockedAt : Option Int
deriving DecidableEq

structure User where
  id : Nat
  name : String
  email : String
  userClass : String
  dailyGoal : String
  weeklySchedule : List String
  level : Nat
  xp : Int
  xpToNextLevel : Int
  totalXP : Int
deriving DecidableEq

structure AppState where
  user : Option User
  quests : List Quest
  habits : List Habit
  focusSessions : List FocusSession
  badges : List Badge
  currentPage : String
  isOnboarded : Bool
  lastDailyReset : Option Int
  moodByDate : List (Int × String)
deriving DecidableEq

/-! ## Leveling function (`utils/xp.ts`, modelled from the spec)

`utils/xp.ts` is not among the sources; only its callers are.  §4.1:
"Starting at level 1, totalXP is consumed level-by-level: repeatedly subtract
`xpForLevel(currentLevel)` from a running total while the remainder is ≥ that
cost, incrementing level each time."  The per-level cost table
(`calculateXPForLevel`) is kept abstract as a parameter `cost`; the spec
requires it positive (`xpToNextLevel > 0`) and monotonically increasing.
The loop is written with a fuel argument so it is structurally recursive and
kernel-computable; the guard also checks `1 ≤ cost level`, which under the
spec's positivity requirement agrees with the spec's loop and makes each
step strictly decrease the remainder, so a fuel of `totalXP.toNat + 1`
always suffices. -/
def levelLoop (cost : Nat → Int) : Nat → Nat → Int → Nat × Int
  | 0, level, rem => (level, rem)
  | fuel + 1, level, rem =>
    if 1 ≤ cost level ∧ cost level ≤ rem then
      levelLoop cost fuel (level + 1) (rem - cost level)
    else (level, rem)

/-- Modelled from the spec (§4.1): the level reached after consuming
`totalXP` level-by-level, starting at level 1. -/
def calculateLevel (cost : Nat → Int) (totalXP : Int) : Nat :=
  (levelLoop cost (totalXP.toNat + 1) 1 totalXP).1

/-- Modelled from the spec (§4.1):
`levelFromTotalXP(totalXP) -> (level, xpWithinLevel, xpToNextLevel)`. -/
def levelFromTotalXP (cost : Nat → Int) (totalXP : Int) : Nat × Int × Int :=
  let r := levelLoop cost (totalXP.toNat + 1) 1 totalXP
  (r.1, r.2, cost r.1)

/-- `sumCostAux cost a n` sums `cost a + cost (a+1) + ⋯ + cost (a+n-1)`. -/
def sumCostAux (cost : Nat → Int) (a : Nat) : Nat → Int
  | 0 => 0
  | n + 1 => cost a + sumCostAux cost (a + 1) n

/-- The accumulation `for (let i = a; i < b; i++) acc += calculateXPForLevel(i)`
performed by the quest / habit / focus handlers (with `a = 1`, `b = newLevel`). -/
def sumCost (cost : Nat → Int) (a b : Nat) : Int :=
  sumCostAux cost a (b - a)

/-- Modelled from the spec: `utils/xp.ts` is not among the sources.  §4.2 and
§9 fix the defensive-validation variant as canonical: easy/normal/hard map to
ascending fixed XP values, anything else resolves to the "normal" default.
The concrete values 10/25/50 are those displayed by the difficulty selector in
`QuestCreateDialog.tsx` ("Easy (+10 XP)" / "Normal (+25 XP)" / "Hard (+50 XP)"). -/
def getXPForDifficulty (difficulty : String) : Int :=
  if difficulty = "easy" then 10
  else if difficulty = "normal" then 25
  else if difficulty = "hard" then 50
  else 25

/-- The XP/level recomputation block shared verbatim by `handleCompleteQuest`,
`handleToggleHabit` (complete branch) and `handleFocusComplete`:

    const newTotalXP = appState.user.totalXP + gain;
    const newLevel = calculateLevel(newTotalXP);
    let xpForCurrentLevel = 0;
    for (let i = 1; i < newLevel; i++) xpForCurrentLevel += calculateXPForLevel(i);
    const currentXP = newTotalXP - xpForCurrentLevel;
    const xpToNextLevel = calculateXPForLevel(newLevel);
    const updatedUser = { ...appState.user, xp, xpToNextLevel, level, totalXP };
-/
def applyXPGain (cost : Nat → Int) (u : User) (gain : Int) : User :=
  let newTotalXP := u.totalXP + gain
  let newLevel := calculateLevel cost newTotalXP
  let xpForCurrentLevel := sumCost cost 1 newLevel
  { u with
    xp := newTotalXP - xpForCurrentLevel
    xpToNextLevel := cost newLevel
    level := newLevel
    totalXP := newTotalXP }

/-- `requirement.toLowerCase()`: lower-case every character.  (Written over
the string's character list rather than via `String.map` so that it is
structurally recursive and kernel-computable.) -/
def strToLower (s : String) : String :=
  ⟨s.data.map Char.toLower⟩

/-- `requirement.includes(pat)` on the lower-cased requirement string. -/
def strIncludes (s pat : String) : Bool :=
  decide (pat.toList <:+: s.toList)

/-- `checkAndUnlockBadges` from `App.tsx`: map over the badge list, keeping
already-unlocked badges (and everything when no user is present) and
unlocking any still-locked badge whose requirement text matches a satisfied
threshold, stamping `unlockedAt` with the current instant. -/
def checkAndUnlockBadges (now : Int) (state : AppState) : List Badge :=
  state.badges.map fun badge =>
    if !badge.isLocked then badge
    else
      match state.user with
      | none => badge
      | some user =>
        let completedQuestsCount :=
          (state.quests.filter fun q => q.status == QuestStatus.completed).length
        let completedFocusSessions :=
          (state.focusSessions.filter fun fs => fs.completed).length
        let requirement := strToLower (badge.requirement.getD "")
        let unlock :=
          if strIncludes requirement "complete 1 quest" && decide (1 ≤ completedQuestsCount) then
            true
          else if strIncludes requirement "7-day streak" &&
              state.habits.any (fun h => decide (7 ≤ h.longestStreak)) then
            true
          else if strIncludes requirement "50 quests" && decide (50 ≤ completedQuestsCount) then
            true
          else if strIncludes requirement "100 focus sessions" &&
              decide (100 ≤ completedFocusSessions) then
            true
          else if strIncludes requirement "level 50" && decide (50 ≤ user.level) then
            true
          else
            false
        if unlock then { badge with isLocked := false, unlockedAt := some now } else badge

/-- `handleCompleteQuest` from `App.tsx`: no-op when the quest id is not found
or no user is present; otherwise mark the quest completed, stamp
`completedAt`, add the quest's `xpReward` to the user's XP (recomputing
level), and run badge evaluation on the resulting snapshot. -/
def handleCompleteQuest (cost : Nat → Int) (now : Int) (s : AppState) (questId : Nat) :
    AppState :=
  match s.quests.find? (fun q => q.id == questId), s.user with
  | some quest, some user =>
    let updatedQuests := s.quests.map fun q =>
      if q.id == questId then
        { q with status := QuestStatus.completed, completedAt := some now }
      else q
    let updatedUser := applyXPGain cost user quest.xpReward
    let newState := { s with user := some updatedUser, quests := updatedQuests }
    { newState with badges := checkAndUnlockBadges now newState }
  | _, _ => s

/-- `handleToggleHabit` from `App.tsx`.  `todayStr` is the `YYYY-MM-DD` prefix
of `new Date().toISOString()`, i.e. the **UTC** day key of `now`; a completion
entry `date` satisfies `date.startsWith(todayStr)` exactly when its UTC day
key equals it.  If already completed today: remove today's entries and
decrement `currentStreak` floored at 0 (no user/XP change).  Otherwise append
a completion at `now`, increment `currentStreak`, raise `longestStreak`,
grant `xpPerCompletion` XP and recompute the level.  Both branches re-run
badge evaluation; missing habit or absent user is a no-op. -/
def handleToggleHabit (cost : Nat → Int) (now : Int) (s : AppState) (habitId : Nat) :
    AppState :=
  let todayKey := utcDayKey now
  match s.habits.find? (fun h => h.id == habitId), s.user with
  | some habit, some user =>
    let isCompletedToday := habit.completedDates.any fun d => utcDayKey d == todayKey
    if isCompletedToday then
      let updatedHabits := s.habits.map fun h =>
        if h.id == habitId then
          { h with
            completedDates := h.completedDates.filter fun d => !(utcDayKey d == todayKey)
            currentStreak := max 0 (h.currentStreak - 1) }
        else h
      let newState := { s with habits := updatedHabits }
      { newState with badges := checkAndUnlockBadges now newState }
    else
      let newStreak := habit.currentStreak + 1
      let longestStreak := max habit.longestStreak newStreak
      let updatedHabits := s.habits.map fun h =>
        if h.id == habitId then
          { h with
            completedDates := h.completedDates ++ [now]
            currentStreak := newStreak
            longestStreak := longestStreak }
        else h
      let updatedUser := applyXPGain cost user habit.xpPerCompletion
      let newState := { s with user := some updatedUser, habits := updatedHabits }
      { newState with badges := checkAndUnlockBadges now newState }
  | _, _ => s

/-- `handleFocusComplete` from `App.tsx`: no-op when no user is present;
otherwise grant the caller-supplied `xpEarned` (recomputing the level),
append a completed session record with `endTime = now` and
`startTime = now - duration` (minutes), and re-run badge evaluation.
`newId` stands for the freshly generated session id. -/
def handleFocusComplete (cost : Nat → Int) (now : Int) (newId : Nat) (s : AppState)
    (duration xpEarned : Int) : AppState :=
  match s.user with
  | none => s
  | some user =>
    let updatedUser := applyXPGain cost user xpEarned
    let newFocusSession : FocusSession :=
      { id := newId
        duration := duration
        startTime := now - duration
        endTime := now
        xpEarned := xpEarned
        completed := true }
    let newState :=
      { s with
        user := some updatedUser
        focusSessions := s.focusSessions ++ [newFocusSession] }
    { newState with badges := checkAndUnlockBadges now newState }

/-- The daily rollover effect from `App.tsx`: when a user is present and
`lastDailyReset` differs from today's key, reset every `isDaily` quest to
pending with `completedAt` cleared, `dueDate` re-anchored to today and all
subtasks marked incomplete, and record today's key in `lastDailyReset`;
otherwise return the snapshot unchanged. -/
def dailyRollover (todayKey now : Int) (s : AppState) : AppState :=
  match s.user with
  | none => s
  | some _ =>
    if s.lastDailyReset = some todayKey then s
    else
      let updatedQuests := s.quests.map fun q =>
        if !q.isDaily then q
        else
          { q with
            status := QuestStatus.pending
            completedAt := none
            dueDate := some (makeDueDateISO now)
            subtasks := q.subtasks.map fun st => { st with completed := false } }
      { s with quests := updatedQuests, lastDailyReset := some todayKey }

/-- The reducer actions the badge / safety invariants quantify over (§4.5):
quest completion, habit toggle, focus-session completion, and a standalone
badge evaluation pass.  Each carries the wall-clock instant (and fresh id)
the handler would read from the environment. -/
inductive Action where
  | completeQuest (questId : Nat) (now : Int)
  | toggleHabit (habitId : Nat) (now : Int)
  | focusComplete (duration xpEarned : Int) (newId : Nat) (now : Int)
  | evalBadges (now : Int)
deriving DecidableEq

def applyAction (cost : Nat → Int) (s : AppState) : Action → AppState
  | Action.completeQuest questId now => handleCompleteQuest cost now s questId
  | Action.toggleHabit habitId now => handleToggleHabit cost now s habitId
  | Action.focusComplete duration xpEarned newId now =>
    handleFocusComplete cost now newId s duration xpEarned
  | Action.evalBadges now => { s with badges := checkAndUnlockBadges now s }

def applyActions (cost : Nat → Int) (s : AppState) (acts : List Action) : AppState :=
  acts.foldl (applyAction cost) s

/-! ## Lemmas about the leveling loop -/

theorem levelLoop_level_le (cost : Nat → Int) :
    ∀ (fuel level : Nat) (rem : Int), level ≤ (levelLoop cost fuel level rem).1 := by
  intro fuel
  induction fuel with
  | zero => intro level rem; exact Nat.le_refl _
  | succ fuel ih =>
    intro level rem
    simp only [levelLoop]
    split
    · exact Nat.le_trans (Nat.le_succ level) (ih (level + 1) (rem - cost level))
    · exact Nat.le_refl _

theorem levelLoop_rem_nonneg (cost : Nat → Int) :
    ∀ (fuel level : Nat) (rem : Int), 0 ≤ rem → 0 ≤ (levelLoop cost fuel level rem).2 := by
  intro fuel
  induction fuel with
  | zero => intro level rem h; exact h
  | succ fuel ih =>
    intro level rem h
    simp only [levelLoop]
    split
    next hg => exact ih (level + 1) (rem - cost level) (by omega)
    next => exact h

theorem levelLoop_rem_lt (cost : Nat → Int) (hc : ∀ n, 1 ≤ cost n) :
    ∀ (fuel level : Nat) (rem : Int), rem.toNat < fuel →
      (levelLoop cost fuel level rem).2 < cost (levelLoop cost fuel level rem).1 := by
  intro fuel
  induction fuel with
  | zero => intro level rem h; omega
  | succ fuel ih =>
    intro level rem h
    simp only [levelLoop]
    split
    next hg =>
      apply ih
      have h1 := hg.1
      have h2 := hg.2
      omega
    next hg =>
      have h1 := hc level
      push_neg at hg
      exact hg h1

theorem sumCost_self (cost : Nat → Int) (a : Nat) : sumCost cost a a = 0 := by
  simp [sumCost, sumCostAux]

theorem sumCost_step (cost : Nat → Int) (a b : Nat) (h : a < b) :
    sumCost cost a b = cost a + sumCost cost (a + 1) b := by
  unfold sumCost
  have hba : b - a = (b - (a + 1)) + 1 := by omega
  rw [hba]
  rfl

theorem levelLoop_rem_eq (cost : Nat → Int) :
    ∀ (fuel level : Nat) (rem : Int),
      (levelLoop cost fuel level rem).2 =
        rem - sumCost cost level (levelLoop cost fuel level rem).1 := by
  intro fuel
  induction fuel with
  | zero =>
    intro level rem
    simp [levelLoop, sumCost_self]
  | succ fuel ih =>
    intro level rem
    simp only [levelLoop]
    split
    next hg =>
      rw [ih (level + 1) (rem - cost level)]
      have hlt : level < (levelLoop cost fuel (level + 1) (rem - cost level)).1 :=
        Nat.lt_of_lt_of_le (Nat.lt_succ_self level)
          (levelLoop_level_le cost fuel (level + 1) (rem - cost level))
      rw [sumCost_step cost level _ hlt]
      ring
    next => simp [sumCost_self]

/-- The user produced by the shared XP/level recomputation block satisfies the
progression invariants whenever the pre-state total is non-negative, the gain
is non-negative and the cost table is positive. -/
theorem applyXPGain_spec (cost : Nat → Int) (hc : ∀ n, 1 ≤ cost n) (u : User) (gain : Int)
    (h0 : 0 ≤ u.totalXP) (hg : 0 ≤ gain) :
    1 ≤ (applyXPGain cost u gain).level ∧
    0 ≤ (applyXPGain cost u gain).xp ∧
    (applyXPGain cost u gain).xp < (applyXPGain cost u gain).xpToNextLevel ∧
    (applyXPGain cost u gain).totalXP = u.totalXP + gain := by
  dsimp only [applyXPGain, calculateLevel, sumCost]
  have hrem := levelLoop_rem_eq cost ((u.totalXP + gain).toNat + 1) 1 (u.totalXP + gain)
  rw [sumCost] at hrem
  refine ⟨levelLoop_level_le cost _ 1 (u.totalXP + gain), ?_, ?_, rfl⟩
  · rw [← hrem]
    exact levelLoop_rem_nonneg cost _ 1 (u.totalXP + gain) (by omega)
  · rw [← hrem]
    exact levelLoop_rem_lt cost hc _ 1 (u.totalXP + gain) (by omega)

theorem applyXPGain_totalXP (cost : Nat → Int) (u : User) (gain : Int) :
    (applyXPGain cost u gain).totalXP = u.totalXP + gain := rfl

/-! ## Frame lemmas for the badge evaluator and the reducer actions -/

theorem checkAndUnlockBadges_unlocked (now : Int) (st : AppState) (i : Nat) (b : Badge)
    (hb : st.badges[i]? = some b) (hl : b.isLocked = false) :
    (checkAndUnlockBadges now st)[i]? = some b := by
  unfold checkAndUnlockBadges
  rw [List.getElem?_map, hb]
  simp [hl]

theorem applyAction_badges_unlocked (cost : Nat → Int) (s : AppState) (a : Action) (i : Nat)
    (b : Badge) (hb : s.badges[i]? = some b) (hl : b.isLocked = false) :
    (applyAction cost s a).badges[i]? = some b := by
  cases a with
  | completeQuest qid now =>
    dsimp only [applyAction, handleCompleteQuest]
    cases hf : s.quests.find? (fun q => q.id == qid) with
    | none => cases hu : s.user <;> simp [hb]
    | some q =>
      cases hu : s.user with
      | none => simp [hb]
      | some u =>
        dsimp only
        apply checkAndUnlockBadges_unlocked <;> assumption
  | toggleHabit hid now =>
    dsimp only [applyAction, handleToggleHabit]
    cases hf : s.habits.find? (fun h => h.id == hid) with
    | none => cases hu : s.user <;> simp [hb]
    | some habit =>
      cases hu : s.user with
      | none => simp [hb]
      | some u =>
        dsimp only
        split
        · dsimp only
          apply checkAndUnlockBadges_unlocked <;> assumption
        · dsimp only
          apply checkAndUnlockBadges_unlocked <;> assumption
  | focusComplete duration xpEarned newId now =>
    dsimp only [applyAction, handleFocusComplete]
    cases hu : s.user with
    | none => exact hb
    | some u =>
      dsimp only
      apply checkAndUnlockBadges_unlocked <;> assumption
  | evalBadges now =>
    dsimp only [applyAction]
    apply checkAndUnlockBadges_unlocked <;> assumption

/-! ## Branch characterizations of the daily rollover -/

theorem dailyRollover_user_none (todayKey now : Int) (s : AppState) (h : s.user = none) :
    dailyRollover todayKey now s = s := by
  dsimp only [dailyRollover]
  rw [h]

theorem dailyRollover_already (todayKey now : Int) (s : AppState)
    (h : s.lastDailyReset = some todayKey) : dailyRollover todayKey now s = s := by
  dsimp only [dailyRollover]
  cases hu : s.user
  · rfl
  · dsimp only
    rw [if_pos h]

theorem dailyRollover_lastDailyReset (todayKey now : Int) (s : AppState) (u : User)
    (hu : s.user = some u) :
    (dailyRollover todayKey now s).lastDailyReset = some todayKey := by
  dsimp only [dailyRollover]
  rw [hu]
  dsimp only
  by_cases hld : s.lastDailyReset = some todayKey
  · rw [if_pos hld]
    exact hld
  · rw [if_neg hld]

theorem dailyRollover_user (todayKey now : Int) (s : AppState) :
    (dailyRollover todayKey now s).user = s.user := by
  dsimp only [dailyRollover]
  cases hu : s.user
  · exact hu
  · dsimp only
    by_cases hld : s.lastDailyReset = some todayKey
    · rw [if_pos hld]
      exact hu
    · rw [if_neg hld]

theorem dailyRollover_quests_fire (todayKey now : Int) (s : AppState) (u : User)
    (hu : s.user = some u) (hne : s.lastDailyReset ≠ some todayKey) :
    (dailyRollover todayKey now s).quests = s.quests.map fun q =>
      if !q.isDaily then q
      else
        { q with
          status := QuestStatus.pending
          completedAt := none
          dueDate := some (makeDueDateISO now)
          subtasks := q.subtasks.map fun st => { st with completed := false } } := by
  dsimp only [dailyRollover]
  rw [hu]
  dsimp only
  rw [if_neg hne]

/-- C4 (amended): once `lastDailyReset` holds the today-key the rollover is the
identity, and a first application records the today-key whenever a user is
present (with no user the rule is a no-op and records nothing): for every
snapshot, applying the rollover a second time with the same today-key returns
the once-rolled snapshot unchanged. -/
theorem C4_amended_rollover_idempotent (s : AppState) (todayKey now now' : Int) :
    (∀ u, s.user = some u → (dailyRollover todayKey now s).lastDailyReset = some todayKey) ∧
    dailyRollover todayKey now' (dailyRollover todayKey now s) = dailyRollover todayKey now s := by
  constructor
  · intro u hu
    exact dailyRollover_lastDailyReset todayKey now s u hu
  · cases hu : s.user with
    | none =>
      rw [dailyRollover_user_none todayKey now s hu, dailyRollover_user_none todayKey now' s hu]
    | some u =>
      by_cases hld : s.lastDailyReset = some todayKey
      · rw [dailyRollover_already todayKey now s hld, dailyRollover_already todayKey now' s hld]
      · exact dailyRollover_already todayKey now' _
          (dailyRollover_lastDailyReset todayKey now s u hu)

/-- C5: when the rollover fires (a user is present and `lastDailyReset`
differs from today's key), every `isDaily` quest is reset to pending with
`completedAt` cleared, `dueDate` re-anchored to today and all subtasks marked
incomplete, while every non-daily quest is exactly its pre-rollover value. -/
theorem C5_rollover_effect (todayKey now : Int) (s : AppState) (u : User)
    (huser : s.user = some u) (hne : s.lastDailyReset ≠ some todayKey) :
    ∀ (i : Nat) (q : Quest), s.quests[i]? = some q →
      (q.isDaily = true →
          (dailyRollover todayKey now s).quests[i]? =
            some { q with
                   status := QuestStatus.pending
                   completedAt := none
                   dueDate := some (makeDueDateISO now)
                   subtasks := q.subtasks.map fun st => { st with completed := false } } ∧
          ∀ q' : Quest, (dailyRollover todayKey now s).quests[i]? = some q' →
            ∀ st ∈ q'.subtasks, st.completed = false) ∧
      (q.isDaily = false → (dailyRollover todayKey now s).quests[i]? = some q) := by
  intro i q hq
  rw [dailyRollover_quests_fire todayKey now s u huser hne]
  rw [List.getElem?_map, hq]
  constructor
  · intro hd
    constructor
    · dsimp only [Option.map]
      rw [if_neg (show ¬((!q.isDaily) = true) by simp [hd])]
    · intro q' hq' st hst
      dsimp only [Option.map] at hq'
      injection hq' with hq'
      subst hq'
      rw [if_neg (show ¬((!q.isDaily) = true) by simp [hd])] at hst
      simp only [List.mem_map] at hst
      obtain ⟨st0, _, rfl⟩ := hst
      rfl
  · intro hd
    dsimp only [Option.map]
    rw [if_pos (show (!q.isDaily) = true by simp [hd])]

theorem handleCompleteQuest_noop (cost : Nat → Int) (now : Int) (s : AppState)
    (questId : Nat)
    (h : s.quests.find? (fun q => q.id == questId) = none ∨ s.user = none) :
    handleCompleteQuest cost now s questId = s := by
  rcases h with h | h
  · dsimp only [handleCompleteQuest]
    rw [h]
  · dsimp only [handleCompleteQuest]
    rw [h]
    cases hf : s.quests.find? (fun q => q.id == questId) <;> rfl

theorem handleToggleHabit_noop (cost : Nat → Int) (now : Int) (s : AppState)
    (habitId : Nat)
    (h : s.habits.find? (fun h => h.id == habitId) = none ∨ s.user = none) :
    handleToggleHabit cost now s habitId = s := by
  rcases h with h | h
  · dsimp only [handleToggleHabit]
    rw [h]
  · dsimp only [handleToggleHabit]
    rw [h]
    cases hf : s.habits.find? (fun h => h.id == habitId) <;> rfl

theorem handleFocusComplete_noop (cost : Nat → Int) (now : Int) (newId : Nat)
    (s : AppState) (duration xpEarned : Int) (h : s.user = none) :
    handleFocusComplete cost now newId s duration xpEarned = s := by
  dsimp only [handleFocusComplete]
  rw [h]

/-- C6: the complete-quest action is a silent no-op (snapshot entirely
unchanged, no exception modelled since the handler is a total function) when
the quest id is not found or no user is present; likewise habit toggle with a
missing habit id and focus-session completion with no user. -/
theorem C6_noop_actions (cost : Nat → Int) (now : Int) (s : AppState)
    (questId habitId newId : Nat) (duration xpEarned : Int) :
    ((s.quests.find? (fun q => q.id == questId) = none ∨ s.user = none) →
        handleCompleteQuest cost now s questId = s) ∧
    ((s.habits.find? (fun h => h.id == habitId) = none ∨ s.user = none) →
        handleToggleHabit cost now s habitId = s) ∧
    (s.user = none → handleFocusComplete cost now newId s duration xpEarned = s) :=
  ⟨handleCompleteQuest_noop cost now s questId,
    handleToggleHabit_noop cost now s habitId,
    handleFocusComplete_noop cost now newId s duration xpEarned⟩

/-- C9: the difficulty-to-reward table maps easy/normal/hard to the strictly
ascending positive XP values 10/25/50, and any unrecognized difficulty value
resolves to the "normal" value instead of failing. -/
theorem C9_difficulty_table :
    getXPForDifficulty "easy" = 10 ∧ getXPForDifficulty "normal" = 25 ∧
    getXPForDifficulty "hard" = 50 ∧
    0 < getXPForDifficulty "easy" ∧
    getXPForDifficulty "easy" < getXPForDifficulty "normal" ∧
    getXPForDifficulty "normal" < getXPForDifficulty "hard" ∧
    ∀ d : String, d ≠ "easy" → d ≠ "normal" → d ≠ "hard" →
      getXPForDifficulty d = getXPForDifficulty "normal" := by
  refine ⟨rfl, rfl, rfl, by decide, by decide, by decide, ?_⟩
  intro d h1 h2 h3
  simp [getXPForDifficulty, h1, h2, h3]

/-- Witness for C9 at the concrete unrecognized difficulty `"epic"`. -/
theorem C9_difficulty_table_witness :
    "epic" ≠ "easy" ∧ "epic" ≠ "normal" ∧ "epic" ≠ "hard" ∧
    getXPForDifficulty "epic" = getXPForDifficulty "normal" :=
  ⟨by decide, by decide, by decide,
    C9_difficulty_table.2.2.2.2.2.2 "epic" (by decide) (by decide) (by decide)⟩

/-! ## Branch characterizations of the three XP-granting handlers -/

theorem handleCompleteQuest_fired (cost : Nat → Int) (now : Int) (s : AppState)
    (questId : Nat) (quest : Quest) (user : User)
    (hf : s.quests.find? (fun q => q.id == questId) = some quest)
    (hu : s.user = some user) :
    handleCompleteQuest cost now s questId =
      let updatedQuests := s.quests.map fun q =>
        if q.id == questId then
          { q with status := QuestStatus.completed, completedAt := some now }
        else q
      let newState :=
        { s with user := some (applyXPGain cost user quest.xpReward), quests := updatedQuests }
      { newState with badges := checkAndUnlockBadges now newState } := by
  dsimp only [handleCompleteQuest]
  rw [hf, hu]

theorem handleToggleHabit_fired_complete (cost : Nat → Int) (now : Int) (s : AppState)
    (habitId : Nat) (habit : Habit) (user : User)
    (hf : s.habits.find? (fun h => h.id == habitId) = some habit)
    (hu : s.user = some user)
    (hnc : habit.completedDates.any (fun d => utcDayKey d == utcDayKey now) = false) :
    handleToggleHabit cost now s habitId =
      let updatedHabits := s.habits.map fun h =>
        if h.id == habitId then
          { h with
            completedDates := h.completedDates ++ [now]
            currentStreak := habit.currentStreak + 1
            longestStreak := max habit.longestStreak (habit.currentStreak + 1) }
        else h
      let newState :=
        { s with
          user := some (applyXPGain cost user habit.xpPerCompletion)
          habits := updatedHabits }
      { newState with badges := checkAndUnlockBadges now newState } := by
  dsimp only [handleToggleHabit]
  rw [hf, hu]
  dsimp only
  rw [hnc]
  rfl

theorem handleToggleHabit_fired_undo (cost : Nat → Int) (now : Int) (s : AppState)
    (habitId : Nat) (habit : Habit) (user : User)
    (hf : s.habits.find? (fun h => h.id == habitId) = some habit)
    (hu : s.user = some user)
    (hcy : habit.completedDates.any (fun d => utcDayKey d == utcDayKey now) = true) :
    handleToggleHabit cost now s habitId =
      let updatedHabits := s.habits.map fun h =>
        if h.id == habitId then
          { h with
            completedDates := h.completedDates.filter fun d => !(utcDayKey d == utcDayKey now)
            currentStreak := max 0 (h.currentStreak - 1) }
        else h
      let newState := { s with habits := updatedHabits }
      { newState with badges := checkAndUnlockBadges now newState } := by
  dsimp only [handleToggleHabit]
  rw [hf, hu]
  dsimp only
  rw [hcy]
  rfl

theorem handleFocusComplete_fired (cost : Nat → Int) (now : Int) (newId : Nat)
    (s : AppState) (duration xpEarned : Int) (user : User) (hu : s.user = some user) :
    handleFocusComplete cost now newId s duration xpEarned =
      let session : FocusSession :=
        { id := newId, duration := duration, startTime := now - duration,
          endTime := now, xpEarned := xpEarned, completed := true }
      let newState :=
        { s with
          user := some (applyXPGain cost user xpEarned)
          focusSessions := s.focusSessions ++ [session] }
      { newState with badges := checkAndUnlockBadges now newState } := by
  dsimp only [handleFocusComplete]
  rw [hu]

/-- `find?` by id commutes with mapping an id-preserving function. -/
theorem find?_map_by_id (f : Habit → Habit) (hf : ∀ h, (f h).id = h.id)
    (l : List Habit) (habitId : Nat) :
    (l.map f).find? (fun h => h.id == habitId) =
      (l.find? (fun h => h.id == habitId)).map f := by
  induction l with
  | nil => rfl
  | cons h t ih =>
    simp only [List.map_cons, List.find?_cons]
    rw [hf h]
    cases hb : (h.id == habitId) with
    | true => rfl
    | false => exact ih

/-- C3: for every non-negative integer totalXP the leveling function yields
level ≥ 1 and 0 ≤ xpWithinLevel < xpToNextLevel; and after each fired
XP-granting action (quest completion, habit completion, focus session) the
recomputed user satisfies level ≥ 1 and 0 ≤ xp < xpToNextLevel. -/
theorem C3_leveling_invariant (cost : Nat → Int) (hc : ∀ n, 1 ≤ cost n) :
    (∀ totalXP : Int, 0 ≤ totalXP →
        1 ≤ (levelFromTotalXP cost totalXP).1 ∧
        0 ≤ (levelFromTotalXP cost totalXP).2.1 ∧
        (levelFromTotalXP cost totalXP).2.1 < (levelFromTotalXP cost totalXP).2.2) ∧
    (∀ (s : AppState) (questId : Nat) (now : Int) (quest : Quest) (user : User),
        s.quests.find? (fun q => q.id == questId) = some quest → s.user = some user →
        0 ≤ user.totalXP → 0 ≤ quest.xpReward →
        ∀ u', (handleCompleteQuest cost now s questId).user = some u' →
          1 ≤ u'.level ∧ 0 ≤ u'.xp ∧ u'.xp < u'.xpToNextLevel) ∧
    (∀ (s : AppState) (habitId : Nat) (now : Int) (habit : Habit) (user : User),
        s.habits.find? (fun h => h.id == habitId) = some habit → s.user = some user →
        habit.completedDates.any (fun d => utcDayKey d == utcDayKey now) = false →
        0 ≤ user.totalXP → 0 ≤ habit.xpPerCompletion →
        ∀ u', (handleToggleHabit cost now s habitId).user = some u' →
          1 ≤ u'.level ∧ 0 ≤ u'.xp ∧ u'.xp < u'.xpToNextLevel) ∧
    (∀ (s : AppState) (now : Int) (newId : Nat) (duration xpEarned : Int) (user : User),
        s.user = some user → 0 ≤ user.totalXP → 0 ≤ xpEarned →
        ∀ u', (handleFocusComplete cost now newId s duration xpEarned).user = some u' →
          1 ≤ u'.level ∧ 0 ≤ u'.xp ∧ u'.xp < u'.xpToNextLevel) := by
  refine ⟨?_, ?_, ?_, ?_⟩
  · intro t ht
    dsimp only [levelFromTotalXP]
    have hrem := levelLoop_rem_eq cost (t.toNat + 1) 1 t
    refine ⟨levelLoop_level_le cost _ 1 t,
      levelLoop_rem_nonneg cost _ 1 t ht,
      levelLoop_rem_lt cost hc _ 1 t (by omega)⟩
  · intro s questId now quest user hf hu h0 hg u' hu'
    rw [handleCompleteQuest_fired cost now s questId quest user hf hu] at hu'
    dsimp only at hu'
    injection hu' with hu'
    subst hu'
    obtain ⟨h1, h2, h3, _⟩ := applyXPGain_spec cost hc user quest.xpReward h0 hg
    exact ⟨h1, h2, h3⟩
  · intro s habitId now habit user hf hu hnc h0 hg u' hu'
    rw [handleToggleHabit_fired_complete cost now s habitId habit user hf hu hnc] at hu'
    dsimp only at hu'
    injection hu' with hu'
    subst hu'
    obtain ⟨h1, h2, h3, _⟩ := applyXPGain_spec cost hc user habit.xpPerCompletion h0 hg
    exact ⟨h1, h2, h3⟩
  · intro s now newId duration xpEarned user hu h0 hg u' hu'
    rw [handleFocusComplete_fired cost now newId s duration xpEarned user hu] at hu'
    dsimp only at hu'
    injection hu' with hu'
    subst hu'
    obtain ⟨h1, h2, h3, _⟩ := applyXPGain_spec cost hc user xpEarned h0 hg
    exact ⟨h1, h2, h3⟩

/-! ## Concrete fixtures for witnesses and counterexamples -/

/-- A concrete positive cost table: every level costs 100 XP. -/
def cost100 : Nat → Int := fun _ => 100

theorem cost100_pos : ∀ n, 1 ≤ cost100 n := by
  intro n
  show (1 : Int) ≤ 100
  decide

def wUser : User :=
  { id := 1, name := "Hero", email := "hero@levelday.com", userClass := "warrior",
    dailyGoal := "", weeklySchedule := [], level := 1, xp := 0, xpToNextLevel := 100,
    totalXP := 0 }

def wHabit : Habit :=
  { id := 1, title := "Read", frequency := "daily", currentStreak := 0, longestStreak := 0,
    xpPerCompletion := 10, completedDates := [], createdAt := 0, color := "#8b5cf6" }

def wQuest : Quest :=
  { id := 2, title := "Train", description := none, difficulty := "hard",
    status := QuestStatus.pending, xpReward := 50, dueDate := none, isDaily := true,
    subtasks := [{ id := 1, title := "warm up", completed := true }], tags := [],
    createdAt := 0, completedAt := none }

def wQuestWeekly : Quest :=
  { wQuest with
    id := 3
    isDaily := false
    status := QuestStatus.completed
    completedAt := some 5 }

def wBadgeUnlocked : Badge :=
  { id := 1, name := "First Step", requirement := some "Complete 1 quest",
    isLocked := false, unlockedAt := some 3 }

def wState : AppState :=
  { user := some wUser, quests := [wQuest, wQuestWeekly], habits := [wHabit],
    focusSessions := [], badges := [wBadgeUnlocked], currentPage := "dashboard",
    isOnboarded := true, lastDailyReset := some 0, moodByDate := [] }

def wStateNoUser : AppState :=
  { user := none, quests := [], habits := [], focusSessions := [], badges := [],
    currentPage := "landing", isOnboarded := false, lastDailyReset := none,
    moodByDate := [] }

/-- C7: badge unlocking is monotonic along every sequence of reducer actions
(quest completion, habit toggle, focus-session completion, badge evaluation):
a badge whose `isLocked` is already false is preserved exactly, so it is never
re-locked and its `unlockedAt` timestamp is never overwritten. -/
theorem C7_badge_monotonic (cost : Nat → Int) (acts : List Action) (i : Nat)
    (b : Badge) (hl : b.isLocked = false) (s : AppState) (hb : s.badges[i]? = some b) :
    (applyActions cost s acts).badges[i]? = some b := by
  induction acts generalizing s with
  | nil => exact hb
  | cons a rest ih =>
    exact ih (applyAction cost s a) (applyAction_badges_unlocked cost s a i b hb hl)

/-- Witness for C7: the already-unlocked badge of `wState` survives a concrete
sequence of all four action kinds untouched. -/
theorem C7_badge_monotonic_witness :
    wState.badges[0]? = some wBadgeUnlocked ∧ wBadgeUnlocked.isLocked = false ∧
    (applyActions cost100 wState
        [Action.completeQuest 2 9, Action.toggleHabit 1 9,
         Action.focusComplete 25 50 7 9, Action.evalBadges 9]).badges[0]? =
      some wBadgeUnlocked :=
  ⟨by decide, by decide,
    C7_badge_monotonic cost100 _ 0 wBadgeUnlocked (by decide) wState (by decide)⟩

/-- C4 counterexample: with no user present the rollover is a no-op and does
*not* set `lastDailyReset` to the today-key, refuting the claim's "for every
snapshot" part at the concrete logged-out snapshot. -/
theorem C4_counterexample :
    (dailyRollover 0 0 wStateNoUser).lastDailyReset ≠ some 0 := by
  decide

/-- Witness for C4 (amended) at a concrete snapshot with a user present. -/
theorem C4_amended_rollover_idempotent_witness :
    (dailyRollover 1 1500 wState).lastDailyReset = some 1 ∧
    dailyRollover 1 2000 (dailyRollover 1 1500 wState) = dailyRollover 1 1500 wState :=
  ⟨(C4_amended_rollover_idempotent wState 1 1500 2000).1 wUser rfl,
    (C4_amended_rollover_idempotent wState 1 1500 2000).2⟩

/-- Witness for C5: firing the rollover on `wState` resets the daily quest
(completed subtask cleared, due date re-anchored) and keeps the non-daily
quest exactly. -/
theorem C5_rollover_effect_witness :
    wState.user = some wUser ∧ wState.lastDailyReset ≠ some 1 ∧
    wQuest.isDaily = true ∧ wQuestWeekly.isDaily = false ∧
    (dailyRollover 1 1500 wState).quests[0]? =
      some { wQuest with
             status := QuestStatus.pending
             completedAt := none
             dueDate := some (makeDueDateISO 1500)
             subtasks := wQuest.subtasks.map fun st => { st with completed := false } } ∧
    (dailyRollover 1 1500 wState).quests[1]? = some wQuestWeekly := by
  refine ⟨rfl, by decide, rfl, rfl, ?_, ?_⟩
  · exact ((C5_rollover_effect 1 1500 wState wUser rfl (by decide)) 0 wQuest rfl).1 rfl |>.1
  · exact ((C5_rollover_effect 1 1500 wState wUser rfl (by decide)) 1 wQuestWeekly rfl).2 rfl

/-- Witness for C6 at concrete missing ids and a concrete logged-out state. -/
theorem C6_noop_actions_witness :
    wState.quests.find? (fun q => q.id == 99) = none ∧
    handleCompleteQuest cost100 0 wState 99 = wState ∧
    wState.habits.find? (fun h => h.id == 99) = none ∧
    handleToggleHabit cost100 0 wState 99 = wState ∧
    wStateNoUser.user = none ∧
    handleFocusComplete cost100 0 9 wStateNoUser 25 10 = wStateNoUser := by
  refine ⟨by decide, ?_, by decide, ?_, rfl, ?_⟩
  · exact (C6_noop_actions cost100 0 wState 99 99 9 25 10).1 (Or.inl (by decide))
  · exact (C6_noop_actions cost100 0 wState 99 99 9 25 10).2.1 (Or.inl (by decide))
  · exact (C6_noop_actions cost100 0 wStateNoUser 99 99 9 25 10).2.2 rfl

/-- Witness for C3 at `totalXP = 250` with the 100-per-level cost table
(level 3, 50 XP within the level) and at a fired quest completion on
`wState`. -/
theorem C3_leveling_invariant_witness :
    (1 ≤ (levelFromTotalXP cost100 250).1 ∧
      0 ≤ (levelFromTotalXP cost100 250).2.1 ∧
      (levelFromTotalXP cost100 250).2.1 < (levelFromTotalXP cost100 250).2.2) ∧
    ∀ u', (handleCompleteQuest cost100 9 wState 2).user = some u' →
      1 ≤ u'.level ∧ 0 ≤ u'.xp ∧ u'.xp < u'.xpToNextLevel :=
  ⟨(C3_leveling_invariant cost100 cost100_pos).1 250 (by decide),
    (C3_leveling_invariant cost100 cost100_pos).2.1 wState 2 9 wQuest wUser
      (by decide) rfl (by decide) (by decide)⟩

/-! ## Well-formedness preservation (C8) -/

/-- The snapshot invariants of §3 that the safety claim is about: the user has
non-negative `totalXP` and `xp` and `level ≥ 1`, quest rewards are
non-negative, and habits have non-negative `currentStreak` and
`xpPerCompletion`. -/
def WfState (s : AppState) : Prop :=
  (∀ u : User, s.user = some u → 0 ≤ u.totalXP ∧ 0 ≤ u.xp ∧ 1 ≤ u.level) ∧
  (∀ q ∈ s.quests, 0 ≤ q.xpReward) ∧
  (∀ h ∈ s.habits, 0 ≤ h.currentStreak ∧ 0 ≤ h.xpPerCompletion)

/-- The focus-session action must carry a non-negative caller-supplied
`xpEarned`; every other action is unconditional. -/
def actionOk : Action → Prop
  | Action.focusComplete _ xpEarned _ _ => 0 ≤ xpEarned
  | _ => True

/-- C8 (amended): from a well-formed snapshot, no reducer action whose
focus-session `xpEarned` is non-negative produces negative `user.xp`,
negative habit `currentStreak`, or `user.level < 1` (the habit undo floors the
streak at 0); the well-formedness of the snapshot is preserved.  (A negative
caller-supplied `xpEarned` violates this — see the counterexample.) -/
theorem C8_amended_no_negative (cost : Nat → Int) (hc : ∀ n, 1 ≤ cost n) (s : AppState)
    (a : Action) (hw : WfState s) (ha : actionOk a) : WfState (applyAction cost s a) := by
  obtain ⟨hwu, hwq, hwh⟩ := hw
  cases a with
  | completeQuest questId now =>
    dsimp only [applyAction]
    cases hf : s.quests.find? (fun q => q.id == questId) with
    | none =>
      rw [handleCompleteQuest_noop cost now s questId (Or.inl hf)]
      exact ⟨hwu, hwq, hwh⟩
    | some quest =>
      cases hu : s.user with
      | none =>
        rw [handleCompleteQuest_noop cost now s questId (Or.inr hu)]
        exact ⟨hwu, hwq, hwh⟩
      | some user =>
        rw [handleCompleteQuest_fired cost now s questId quest user hf hu]
        dsimp only
        have hqmem := List.mem_of_find?_eq_some hf
        obtain ⟨h0, _, _⟩ := hwu user hu
        obtain ⟨h1, h2, h3, h4⟩ :=
          applyXPGain_spec cost hc user quest.xpReward h0 (hwq quest hqmem)
        refine ⟨?_, ?_, hwh⟩
        · intro u' hu'
          injection hu' with hu'
          subst hu'
          exact ⟨by rw [h4]; have := hwq quest hqmem; omega, h2, h1⟩
        · intro q' hq'
          rw [List.mem_map] at hq'
          obtain ⟨q0, hq0, rfl⟩ := hq'
          by_cases hi : (q0.id == questId) = true
          · rw [if_pos hi]
            exact hwq q0 hq0
          · rw [if_neg hi]
            exact hwq q0 hq0
  | toggleHabit habitId now =>
    dsimp only [applyAction]
    cases hf : s.habits.find? (fun h => h.id == habitId) with
    | none =>
      rw [handleToggleHabit_noop cost now s habitId (Or.inl hf)]
      exact ⟨hwu, hwq, hwh⟩
    | some habit =>
      cases hu : s.user with
      | none =>
        rw [handleToggleHabit_noop cost now s habitId (Or.inr hu)]
        exact ⟨hwu, hwq, hwh⟩
      | some user =>
        have hhmem := List.mem_of_find?_eq_some hf
        cases hcy : habit.completedDates.any (fun d => utcDayKey d == utcDayKey now) with
        | true =>
          rw [handleToggleHabit_fired_undo cost now s habitId habit user hf hu hcy]
          dsimp only
          refine ⟨fun u' hu' => hwu u' hu', hwq, ?_⟩
          intro h' hh'
          rw [List.mem_map] at hh'
          obtain ⟨h0, hh0, rfl⟩ := hh'
          by_cases hi : (h0.id == habitId) = true
          · rw [if_pos hi]
            exact ⟨le_max_left 0 _, (hwh h0 hh0).2⟩
          · rw [if_neg hi]
            exact hwh h0 hh0
        | false =>
          rw [handleToggleHabit_fired_complete cost now s habitId habit user hf hu hcy]
          dsimp only
          obtain ⟨h0, _, _⟩ := hwu user hu
          obtain ⟨h1, h2, h3, h4⟩ :=
            applyXPGain_spec cost hc user habit.xpPerCompletion h0 (hwh habit hhmem).2
          refine ⟨?_, hwq, ?_⟩
          · intro u' hu'
            injection hu' with hu'
            subst hu'
            exact ⟨by rw [h4]; have := (hwh habit hhmem).2; omega, h2, h1⟩
          · intro h' hh'
            rw [List.mem_map] at hh'
            obtain ⟨h0', hh0', rfl⟩ := hh'
            by_cases hi : (h0'.id == habitId) = true
            · rw [if_pos hi]
              dsimp only
              refine ⟨?_, (hwh h0' hh0').2⟩
              have := (hwh habit hhmem).1
              omega
            · rw [if_neg hi]
              exact hwh h0' hh0'
  | focusComplete duration xpEarned newId now =>
    dsimp only [applyAction]
    cases hu : s.user with
    | none =>
      rw [handleFocusComplete_noop cost now newId s duration xpEarned hu]
      exact ⟨hwu, hwq, hwh⟩
    | some user =>
      rw [handleFocusComplete_fired cost now newId s duration xpEarned user hu]
      dsimp only
      obtain ⟨h0, _, _⟩ := hwu user hu
      obtain ⟨h1, h2, h3, h4⟩ := applyXPGain_spec cost hc user xpEarned h0 ha
      refine ⟨?_, hwq, hwh⟩
      intro u' hu'
      injection hu' with hu'
      subst hu'
      have hx : 0 ≤ xpEarned := ha
      exact ⟨by rw [h4]; omega, h2, h1⟩
  | evalBadges now =>
    exact ⟨hwu, hwq, hwh⟩

/-- A habit already completed at instant 0 (UTC day 0), toggled again late the
same UTC day in a UTC+2 viewer timezone. -/
def tzHabit : Habit :=
  { wHabit with currentStreak := 1, longestStreak := 1, completedDates := [0] }

def tzState : AppState :=
  { wState with habits := [tzHabit], badges := [], quests := [] }

/-- C2 (code bug): `handleToggleHabit` derives "today" from the
`YYYY-MM-DD` prefix of `new Date().toISOString()` — the **UTC** day key — not
from `toLocalDateKey` as the rollover does.  At instant 1439
(1970-01-01T23:59 UTC) with viewer timezone offset +120 min the local
date-key is day 1 while the UTC key is day 0; a habit completed at instant 0
(the previous *local* day) is treated as "completed today", so the toggle
takes the undo branch (streak decremented to 0, entry removed, no XP
granted) instead of recording a new completion. -/
theorem C2_code_bug_eval :
    utcDayKey 1439 ≠ toLocalDateKey 120 1439 ∧
    toLocalDateKey 120 0 ≠ toLocalDateKey 120 1439 ∧
    utcDayKey 0 = utcDayKey 1439 ∧
    (handleToggleHabit cost100 1439 tzState 1).habits.map
        (fun h => (h.currentStreak, h.completedDates)) = [(0, [])] ∧
    (handleToggleHabit cost100 1439 tzState 1).user = tzState.user := by
  decide

/-- C8 counterexample: from the well-formed snapshot `wState` (user `xp = 0`,
`level = 1`, `totalXP = 0`), focus-session completion with the caller-supplied
`xpEarned = -50` recomputes `user.xp` to −50 < 0 (and `totalXP` to −50), so
the claim fails for arbitrary caller-supplied `xpEarned` values. -/
theorem C8_counterexample :
    wState.user.map User.xp = some 0 ∧
    (handleFocusComplete cost100 0 9 wState 25 (-50)).user.map User.xp = some (-50) ∧
    (handleFocusComplete cost100 0 9 wState 25 (-50)).user.map User.totalXP =
      some (-50) := by
  decide

/-- Witness for C8 (amended) at a concrete well-formed snapshot and a concrete
focus-session completion with non-negative `xpEarned`. -/
theorem C8_amended_no_negative_witness :
    WfState wState ∧ actionOk (Action.focusComplete 25 50 9 0) ∧
    WfState (applyAction cost100 wState (Action.focusComplete 25 50 9 0)) := by
  have hw : WfState wState := by
    refine ⟨?_, by decide, by decide⟩
    intro u hu
    injection hu with h
    subst h
    exact ⟨by decide, by decide, by decide⟩
  have ha : actionOk (Action.focusComplete 25 50 9 0) := by
    show (0 : Int) ≤ 50
    decide
  exact ⟨hw, ha, C8_amended_no_negative cost100 cost100_pos wState _ hw ha⟩

/-- C1 counterexample: toggling the fresh habit of `wState` twice in the same
day (complete then undo) restores `currentStreak` and `completedDates`, but
`user.totalXP` ends at 10, not its pre-toggle value 0: the undo branch never
refunds the XP granted by the completion, so the net XP change is not zero. -/
theorem C1_counterexample :
    (handleToggleHabit cost100 100 (handleToggleHabit cost100 100 wState 1) 1).habits.map
        (fun h => (h.currentStreak, h.completedDates)) =
      wState.habits.map (fun h => (h.currentStreak, h.completedDates)) ∧
    wState.user.map User.totalXP = some 0 ∧
    (handleToggleHabit cost100 100 (handleToggleHabit cost100 100 wState 1) 1).user.map
        User.totalXP = some 10 := by
  decide

/-- C1 (amended): toggling a habit twice in the same day (complete then undo)
restores every habit's `currentStreak` and `completedDates` to their
pre-toggle values, but the user's `totalXP` ends at its pre-toggle value
*plus* the habit's `xpPerCompletion`: the undo grants no XP yet does not
refund the completion's grant, so the net XP change of the pair is not zero. -/
theorem C1_amended_toggle_pair (cost : Nat → Int) (s : AppState) (habitId : Nat)
    (now₁ now₂ : Int) (habit : Habit) (user : User)
    (hfind : s.habits.find? (fun h => h.id == habitId) = some habit)
    (huser : s.user = some user)
    (hkey : utcDayKey now₂ = utcDayKey now₁)
    (hmatch : ∀ h ∈ s.habits, h.id = habitId →
        h.currentStreak = habit.currentStreak ∧
        ∀ d ∈ h.completedDates, utcDayKey d ≠ utcDayKey now₁)
    (hstreak : 0 ≤ habit.currentStreak) :
    (handleToggleHabit cost now₂ (handleToggleHabit cost now₁ s habitId) habitId).habits.map
        (fun h => (h.currentStreak, h.completedDates)) =
      s.habits.map (fun h => (h.currentStreak, h.completedDates)) ∧
    (handleToggleHabit cost now₂ (handleToggleHabit cost now₁ s habitId) habitId).user.map
        User.totalXP = some (user.totalXP + habit.xpPerCompletion) := by
  have hmem : habit ∈ s.habits := List.mem_of_find?_eq_some hfind
  have hidb0 := List.find?_some hfind
  have hideq : habit.id = habitId := by simpa using hidb0
  have hidb : (habit.id == habitId) = true := by simpa using hideq
  have hnc : habit.completedDates.any (fun d => utcDayKey d == utcDayKey now₁) = false := by
    rw [List.any_eq_false]
    intro d hd
    simpa using (hmatch habit hmem hideq).2 d hd
  have hpres : ∀ h : Habit,
      ((fun h : Habit =>
          if h.id == habitId then
            { h with
              completedDates := h.completedDates ++ [now₁]
              currentStreak := habit.currentStreak + 1
              longestStreak := max habit.longestStreak (habit.currentStreak + 1) }
          else h) h).id = h.id := by
    intro h
    dsimp only
    split <;> rfl
  have h1habits : (handleToggleHabit cost now₁ s habitId).habits =
      s.habits.map fun h =>
        if h.id == habitId then
          { h with
            completedDates := h.completedDates ++ [now₁]
            currentStreak := habit.currentStreak + 1
            longestStreak := max habit.longestStreak (habit.currentStreak + 1) }
        else h := by
    rw [handleToggleHabit_fired_complete cost now₁ s habitId habit user hfind huser hnc]
  have h1user : (handleToggleHabit cost now₁ s habitId).user =
      some (applyXPGain cost user habit.xpPerCompletion) := by
    rw [handleToggleHabit_fired_complete cost now₁ s habitId habit user hfind huser hnc]
  have hfind2 : (handleToggleHabit cost now₁ s habitId).habits.find?
        (fun h => h.id == habitId) =
      some { habit with
             completedDates := habit.completedDates ++ [now₁]
             currentStreak := habit.currentStreak + 1
             longestStreak := max habit.longestStreak (habit.currentStreak + 1) } := by
    rw [h1habits, find?_map_by_id _ hpres s.habits habitId, hfind]
    dsimp only [Option.map]
    rw [if_pos hidb]
  have hcy2 : ({ habit with
        completedDates := habit.completedDates ++ [now₁]
        currentStreak := habit.currentStreak + 1
        longestStreak := max habit.longestStreak (habit.currentStreak + 1) }
          : Habit).completedDates.any
        (fun d => utcDayKey d == utcDayKey now₂) = true := by
    dsimp only
    rw [List.any_append]
    simp [hkey]
  have h2 := handleToggleHabit_fired_undo cost now₂ (handleToggleHabit cost now₁ s habitId)
    habitId _ (applyXPGain cost user habit.xpPerCompletion) hfind2 h1user hcy2
  rw [h2]
  constructor
  · rw [h1habits, List.map_map, List.map_map]
    apply List.map_congr_left
    intro h hmem2
    dsimp only [Function.comp]
    by_cases hi : (h.id == habitId) = true
    · have hieq : h.id = habitId := by simpa using hi
      obtain ⟨hcur, hdates⟩ := hmatch h hmem2 hieq
      rw [if_pos hi]
      dsimp only
      rw [if_pos hi]
      dsimp only
      have hmax : max 0 (habit.currentStreak + 1 - 1) = h.currentStreak := by omega
      rw [hmax, List.filter_append]
      have hfself : h.completedDates.filter
          (fun d => !(utcDayKey d == utcDayKey now₂)) = h.completedDates := by
        rw [List.filter_eq_self]
        intro d hd
        simp [hkey, hdates d hd]
      have hfnow : ([now₁] : List Int).filter
          (fun d => !(utcDayKey d == utcDayKey now₂)) = [] := by
        simp [hkey]
      rw [hfself, hfnow, List.append_nil]
    · rw [if_neg hi]
      rw [if_neg hi]
  · show Option.map User.totalXP (handleToggleHabit cost now₁ s habitId).user = _
    rw [h1user]
    rfl

/-- Witness for C1 (amended): on `wState` (fresh habit, user with 0 XP) a
same-day complete-then-undo pair restores the habit fields and nets +10 XP. -/
theorem C1_amended_toggle_pair_witness :
    (handleToggleHabit cost100 100 (handleToggleHabit cost100 50 wState 1) 1).habits.map
        (fun h => (h.currentStreak, h.completedDates)) =
      wState.habits.map (fun h => (h.currentStreak, h.completedDates)) ∧
    (handleToggleHabit cost100 100 (handleToggleHabit cost100 50 wState 1) 1).user.map
        User.totalXP = some (wUser.totalXP + wHabit.xpPerCompletion) :=
  C1_amended_toggle_pair cost100 wState 1 50 100 wHabit wUser (by decide) rfl (by decide)
    (by decide) (by decide)

/-- C10: `longestStreak` is monotone under toggle actions: the completing
toggle raises the toggled habit's `longestStreak` to
`max longestStreak (currentStreak + 1)` while the undo toggle decrements
`currentStreak` (floored at 0) without touching `longestStreak`; consequently
a same-day complete-then-undo pair permanently raises `longestStreak` even
though `currentStreak` and `completedDates` are restored, and alternating
toggles within one day reproduce the same raised state. -/
theorem C10_longest_streak (cost : Nat → Int) :
    (∀ (s : AppState) (habitId : Nat) (now : Int) (habit : Habit),
        s.habits.find? (fun h => h.id == habitId) = some habit →
        (∀ h ∈ s.habits, h.id = habitId → h = habit) →
        ∀ (i : Nat) (h h' : Habit), s.habits[i]? = some h →
          (handleToggleHabit cost now s habitId).habits[i]? = some h' →
          h.longestStreak ≤ h'.longestStreak) ∧
    (∀ (s : AppState) (habitId : Nat) (now : Int) (habit : Habit) (user : User),
        s.habits.find? (fun h => h.id == habitId) = some habit →
        s.user = some user →
        habit.completedDates.any (fun d => utcDayKey d == utcDayKey now) = false →
        ∀ (i : Nat) (h : Habit), s.habits[i]? = some h → (h.id == habitId) = true →
          (handleToggleHabit cost now s habitId).habits[i]? =
            some { h with
                   completedDates := h.completedDates ++ [now]
                   currentStreak := habit.currentStreak + 1
                   longestStreak := max habit.longestStreak (habit.currentStreak + 1) }) ∧
    (∀ (s : AppState) (habitId : Nat) (now : Int) (habit : Habit) (user : User),
        s.habits.find? (fun h => h.id == habitId) = some habit →
        s.user = some user →
        habit.completedDates.any (fun d => utcDayKey d == utcDayKey now) = true →
        ∀ (i : Nat) (h : Habit), s.habits[i]? = some h → (h.id == habitId) = true →
          (handleToggleHabit cost now s habitId).habits[i]? =
            some { h with
                   completedDates :=
                     h.completedDates.filter fun d => !(utcDayKey d == utcDayKey now)
                   currentStreak := max 0 (h.currentStreak - 1) }) ∧
    ((handleToggleHabit cost100 100 (handleToggleHabit cost100 50 wState 1) 1).habits.map
        (fun h => (h.currentStreak, h.longestStreak, h.completedDates)) = [(0, 1, [])] ∧
      wState.habits.map (fun h => (h.currentStreak, h.longestStreak, h.completedDates)) =
        [(0, 0, [])] ∧
      (handleToggleHabit cost100 100 (handleToggleHabit cost100 100 (handleToggleHabit
          cost100 100 (handleToggleHabit cost100 50 wState 1) 1) 1) 1).habits.map
        (fun h => (h.currentStreak, h.longestStreak, h.completedDates)) = [(0, 1, [])]) := by
  refine ⟨?_, ?_, ?_, by decide, by decide, by decide⟩
  · intro s habitId now habit hf huniq i h h' hb hb'
    cases hu : s.user with
    | none =>
      rw [handleToggleHabit_noop cost now s habitId (Or.inr hu), hb] at hb'
      injection hb' with e
      rw [← e]
    | some user =>
      cases hcy : habit.completedDates.any (fun d => utcDayKey d == utcDayKey now) with
      | false =>
        rw [handleToggleHabit_fired_complete cost now s habitId habit user hf hu hcy] at hb'
        dsimp only at hb'
        rw [List.getElem?_map, hb] at hb'
        dsimp only [Option.map] at hb'
        injection hb' with e
        rw [← e]
        by_cases hi2 : (h.id == habitId) = true
        · have heq : h = habit := huniq h (List.getElem?_mem hb) (by simpa using hi2)
          rw [if_pos hi2]
          dsimp only
          rw [heq]
          exact le_max_left _ _
        · rw [if_neg hi2]
      | true =>
        rw [handleToggleHabit_fired_undo cost now s habitId habit user hf hu hcy] at hb'
        dsimp only at hb'
        rw [List.getElem?_map, hb] at hb'
        dsimp only [Option.map] at hb'
        injection hb' with e
        rw [← e]
        by_cases hi2 : (h.id == habitId) = true
        · rw [if_pos hi2]
        · rw [if_neg hi2]
  · intro s habitId now habit user hf hu hnc i h hb hid
    rw [handleToggleHabit_fired_complete cost now s habitId habit user hf hu hnc]
    dsimp only
    rw [List.getElem?_map, hb]
    dsimp only [Option.map]
    rw [if_pos hid]
  · intro s habitId now habit user hf hu hcy i h hb hid
    rw [handleToggleHabit_fired_undo cost now s habitId habit user hf hu hcy]
    dsimp only
    rw [List.getElem?_map, hb]
    dsimp only [Option.map]
    rw [if_pos hid]

/-- Witness for C10: the completing toggle on the fresh habit of `wState`
raises `longestStreak` to `max 0 (0 + 1) = 1`. -/
theorem C10_longest_streak_witness :
    (handleToggleHabit cost100 50 wState 1).habits[0]? =
      some { wHabit with
             completedDates := wHabit.completedDates ++ [50]
             currentStreak := wHabit.currentStreak + 1
             longestStreak := max wHabit.longestStreak (wHabit.currentStreak + 1) } :=
  (C10_longest_streak cost100).2.1 wState 1 50 wHabit wUser (by decide) rfl (by decide)
    0 wHabit (by decide) (by decide)

end Solo
